import Mathlib

/-!
Verification of the checkpoint orchestrator of the WiredTiger storage engine
(src/txn/txn_ckpt.c), shallowly embedded in Lean 4.

Checkpoint names are modelled as List Char (the C code works on (pointer, len)
slices of configuration strings and on NUL-terminated strings; a name value is
the sequence of its characters, which never include NUL).  A snapshot-list
entry (WT_CKPT) keeps its name, the two flags the orchestrator reads and
writes (WT_CKPT_ADD, WT_CKPT_DELETE) and an opaque payload standing for the
on-disk reference data the orchestrator never touches.  Collaborator calls
(cache flush, metadata read/write, snapshot locking, tracking) are modelled by
an environment supplying their return codes, and each invocation is recorded
as an event so that claims about which collaborators run, in which order and
with which arguments can be stated.
-/

namespace WTC

/-- POSIX EINVAL, the code WT_ERR_MSG/WT_RET_MSG use for misuse errors. -/
def EINVAL : Int := 22

/-- POSIX EBUSY, returned when a doomed checkpoint cannot be locked. -/
def EBUSY : Int := 16

/-- WT_NOTFOUND as defined by wiredtiger's public header (not part of this
source snapshot; only its distinctness from 0, EINVAL and EBUSY matters). -/
def WT_NOTFOUND : Int := -31803

/-- The reserved internal checkpoint name, the literal WT_CHECKPOINT of the
source ("WiredTigerCheckpoint"). -/
def WT_CHECKPOINT : List Char := "WiredTigerCheckpoint".toList

/-- strncmp(a, b, n) == 0 for C strings: compare at most n characters,
stopping early at a mismatch or when both strings end; if one string ends
while the other continues (within n), the NUL differs from the live character
and the comparison fails.  The lists are the characters before the NUL. -/
def strncmpEq : List Char → List Char → Nat → Bool
  | _, _, 0 => true
  | [], [], _ + 1 => true
  | [], _ :: _, _ + 1 => false
  | _ :: _, [], _ + 1 => false
  | a :: as, b :: bs, n + 1 => a == b && strncmpEq as bs n

/-- WT_STRING_MATCH(str, bytes, len): strncmp(str, bytes, len) == 0 &&
str[len] == the NUL terminator.  Here bytes is the (bytes, len) slice, so the
second conjunct says str has exactly len characters. -/
def WT_STRING_MATCH (str bytes : List Char) : Bool :=
  strncmpEq str bytes bytes.length && str.length == bytes.length

/-- One entry of a tree's snapshot list (WT_CKPT): the orchestrator reads and
writes only the name and the ADD/DELETE flags; every other field (root
address, sizes, write generation, ...) is opaque payload carried verbatim. -/
structure WT_CKPT where
  name : List Char
  add : Bool
  delete : Bool
  payload : Nat
deriving Repr, DecidableEq

/-- F_SET(ckpt, WT_CKPT_DELETE). -/
def F_SET_DELETE (c : WT_CKPT) : WT_CKPT := { c with delete := true }

/-- F_CLR(ckpt, WT_CKPT_DELETE). -/
def F_CLR_DELETE (c : WT_CKPT) : WT_CKPT := { c with delete := false }

/-- __ckpt_name_ok (txn_ckpt.c:156): 0 when the name is allowed, EINVAL when
it starts with the reserved internal name.  Names shorter than the reserved
name are accepted; otherwise the first strlen(WT_CHECKPOINT) characters are
compared. -/
def __ckpt_name_ok (name : List Char) : Int :=
  if name.length < WT_CHECKPOINT.length then 0
  else if !(strncmpEq name WT_CHECKPOINT WT_CHECKPOINT.length) then 0
  else EINVAL

/-- __drop (txn_ckpt.c:177): drop all checkpoints with a specific name.  When
strncmp(WT_CHECKPOINT, name, len) == 0 (the name is an initial segment of the
reserved internal name), every entry whose name begins with the full reserved
name is marked; otherwise every entry whose name equals the (name, len) slice
is marked. -/
def __drop (ckptbase : List WT_CKPT) (name : List Char) : List WT_CKPT :=
  if strncmpEq WT_CHECKPOINT name name.length then
    ckptbase.map fun ckpt =>
      if strncmpEq ckpt.name WT_CHECKPOINT WT_CHECKPOINT.length then
        F_SET_DELETE ckpt
      else ckpt
  else
    ckptbase.map fun ckpt =>
      if WT_STRING_MATCH ckpt.name name then F_SET_DELETE ckpt else ckpt

/-- The WT_CKPT_FOREACH loop of __drop_from, threading the matched flag. -/
def dropFromLoop (name : List Char) : Bool → List WT_CKPT → List WT_CKPT
  | _, [] => []
  | matched, ckpt :: rest =>
    if !matched && !WT_STRING_MATCH ckpt.name name then
      ckpt :: dropFromLoop name matched rest
    else
      F_SET_DELETE ckpt :: dropFromLoop name true rest

/-- __drop_from (txn_ckpt.c:204): drop all checkpoints after, and including,
the named checkpoint; "all" drops everything. -/
def __drop_from (ckptbase : List WT_CKPT) (name : List Char) : List WT_CKPT :=
  if WT_STRING_MATCH "all".toList name then ckptbase.map F_SET_DELETE
  else dropFromLoop name false ckptbase

/-- The first WT_CKPT_FOREACH loop of __drop_to: mark ends as the position of
the last entry matching the name (a pointer in C, an index here). -/
def dropToMark (ckptbase : List WT_CKPT) (name : List Char) : Option Nat :=
  ckptbase.enum.foldl
    (fun mark p => if WT_STRING_MATCH p.2.name name then some p.1 else mark)
    none

/-- __drop_to (txn_ckpt.c:239): drop all checkpoints before, and including,
the named checkpoint; the second loop sets DELETE up to the marked position
and breaks there. -/
def __drop_to (ckptbase : List WT_CKPT) (name : List Char) : List WT_CKPT :=
  match dropToMark ckptbase name with
  | none => ckptbase
  | some m =>
    ckptbase.enum.map fun p => if p.1 ≤ m then F_SET_DELETE p.2 else p.2

/-- The session's transaction isolation level (WT_TXN_ISOLATION). -/
inductive Isolation where
  | readUncommitted
  | readCommitted
  | snapshot
deriving Repr, DecidableEq

/-- The mode argument of __wt_bt_cache_flush. -/
inductive Sync where
  | sync
  | syncDiscard
  | syncDiscardNowrite
deriving Repr, DecidableEq

/-- One collaborator invocation made by __wt_checkpoint.  flush and metaSet
record the snapshot list handed over (none for the early-out flushes that
pass NULL) and the session isolation in effect at the call. -/
inductive Event where
  | flush (list : Option (List WT_CKPT)) (mode : Sync) (iso : Isolation)
  | forceWrite
  | metaSet (tree : List Char) (list : List WT_CKPT) (iso : Isolation)
  | lockCkpt (name : List Char)
  | trackCkpt
  | bmResolve
deriving Repr, DecidableEq

/-- The fields of WT_BTREE that __wt_checkpoint reads: the tree's URI, whether
the handle is a checkpoint (snapshot-view, read-only) handle
(btree->checkpoint != NULL), and the modified bit. -/
structure Btree where
  name : List Char
  isCkptHandle : Bool
  modified : Bool
deriving Repr, DecidableEq

/-- The configuration values __wt_checkpoint reads: the "name" string ([] when
absent or empty, which both leave cval.len == 0) and the parsed "drop" items,
each a (key, value) pair with value = [] for a bare key. -/
structure Config where
  nameVal : List Char
  dropVal : List (List Char × List Char)
deriving Repr, DecidableEq

/-- Return codes of the collaborators __wt_checkpoint calls, supplied by the
environment: the loaded snapshot list (or WT_NOTFOUND, or another error) and
the results of locking, force-write, flush, metadata write, tracking and
block-manager resolve. -/
structure TreeEnv where
  ckptlistRet : Except Int (List WT_CKPT)
  lockRet : List Char → Int
  forceWriteRet : Int
  flushRet : Sync → Int
  metaSetRet : Int
  trackCkptRet : Int
  bmResolveRet : Int

/-- The session-reachable state __wt_checkpoint reads: the current tree
handle, the transaction isolation level, whether metadata tracking is on
(WT_META_TRACKING) and whether a backup cursor is open (conn->ckpt_backup). -/
structure SessionSt where
  btree : Btree
  isolation : Isolation
  tracking : Bool
  ckptBackup : Bool
deriving Repr

/-- What one __wt_checkpoint call produces: the return code, the session
isolation and the tree's modified bit after the call, and the collaborator
invocations in order. -/
structure TreeResult where
  ret : Int
  isolation : Isolation
  modified : Bool
  events : List Event
deriving Repr, DecidableEq

/-- The drop-configuration loop of __wt_checkpoint (txn_ckpt.c:346): each
(key, value) item is first name-checked (the bare key, or the value when one
is present), then dispatched: a bare key to __drop, from=NAME to __drop_from,
to=NAME to __drop_to; any other key fails with EINVAL. -/
def applyDropConfig (ckptbase : List WT_CKPT) :
    List (List Char × List Char) → Except Int (List WT_CKPT)
  | [] => .ok ckptbase
  | (k, v) :: rest =>
    let chk := if v = [] then __ckpt_name_ok k else __ckpt_name_ok v
    if chk ≠ 0 then .error chk
    else if v = [] then applyDropConfig (__drop ckptbase k) rest
    else if WT_STRING_MATCH "from".toList k then
      applyDropConfig (__drop_from ckptbase v) rest
    else if WT_STRING_MATCH "to".toList k then
      applyDropConfig (__drop_to ckptbase v) rest
    else .error EINVAL

/-- The clean-object test of __wt_checkpoint (txn_ckpt.c:403): exactly one
entry is flagged DELETE, it is the last entry of the list (ckpt - 1 after the
FOREACH), and its name equals the checkpoint being taken. -/
def cleanSkip (ckptbase : List WT_CKPT) (name : List Char) : Bool :=
  ckptbase.countP (fun c => c.delete) == 1 &&
  (match ckptbase.getLast? with
   | some last => last.delete && last.name == name
   | none => false)

/-- The doomed-snapshot locking loop of __wt_checkpoint (txn_ckpt.c:429),
run only when tracking is on.  Entries not flagged DELETE are skipped.  With a
backup cursor open, a reserved-name entry has its DELETE flag cleared and a
differently named entry fails with EBUSY.  Otherwise the entry is locked:
success keeps it, EBUSY on a reserved name clears the flag, and any other
outcome fails the checkpoint.  Returns the updated list (or the error) paired
with the lock invocations made. -/
def lockLoop (env : TreeEnv) (backup : Bool) :
    List WT_CKPT → Except Int (List WT_CKPT) × List Event
  | [] => (.ok [], [])
  | ckpt :: rest =>
    if !ckpt.delete then
      let r := lockLoop env backup rest
      (r.1.map (ckpt :: ·), r.2)
    else if backup then
      if strncmpEq ckpt.name WT_CHECKPOINT WT_CHECKPOINT.length then
        let r := lockLoop env backup rest
        (r.1.map (F_CLR_DELETE ckpt :: ·), r.2)
      else (.error EBUSY, [])
    else if env.lockRet ckpt.name = 0 then
      let r := lockLoop env backup rest
      (r.1.map (ckpt :: ·), Event.lockCkpt ckpt.name :: r.2)
    else if env.lockRet ckpt.name = EBUSY &&
        strncmpEq ckpt.name WT_CHECKPOINT WT_CHECKPOINT.length then
      let r := lockLoop env backup rest
      (r.1.map (F_CLR_DELETE ckpt :: ·), Event.lockCkpt ckpt.name :: r.2)
    else (.error (env.lockRet ckpt.name), [Event.lockCkpt ckpt.name])

/-- The flush mode of the main flush (txn_ckpt.c:502): WT_SYNC for a
checkpoint, WT_SYNC_DISCARD for a close. -/
def flushModeOf (is_checkpoint : Bool) : Sync :=
  if is_checkpoint then .sync else .syncDiscard

/-- The isolation in effect at the main flush (txn_ckpt.c:498): lowered to
read-uncommitted when closing a handle, so everything is included. -/
def flushIsoOf (is_checkpoint : Bool) (iso : Isolation) : Isolation :=
  if is_checkpoint then iso else .readUncommitted

/-- __wt_checkpoint after the locking loop (txn_ckpt.c:482-527): force-write
the root, clear the modified bit, flush, write the snapshot list to the
metadata at read-uncommitted, then defer the block-manager resolve to the
tracker (tracking checkpoint) or resolve at once.  The err and skip labels
restore the saved isolation on every exit. -/
def ckptFinish (s : SessionSt) (env : TreeEnv) (is_checkpoint : Bool)
    (base2 : List WT_CKPT) (evs0 : List Event) : TreeResult :=
  if env.forceWriteRet ≠ 0 then
    ⟨env.forceWriteRet, s.isolation, s.btree.modified,
      evs0 ++ [Event.forceWrite]⟩
  else if env.flushRet (flushModeOf is_checkpoint) ≠ 0 then
    ⟨env.flushRet (flushModeOf is_checkpoint), s.isolation, false,
      evs0 ++ [Event.forceWrite,
        Event.flush (some base2) (flushModeOf is_checkpoint)
          (flushIsoOf is_checkpoint s.isolation)]⟩
  else if env.metaSetRet ≠ 0 then
    ⟨env.metaSetRet, s.isolation, false,
      evs0 ++ [Event.forceWrite,
        Event.flush (some base2) (flushModeOf is_checkpoint)
          (flushIsoOf is_checkpoint s.isolation),
        Event.metaSet s.btree.name base2 .readUncommitted]⟩
  else if s.tracking && is_checkpoint then
    ⟨env.trackCkptRet, s.isolation, false,
      evs0 ++ [Event.forceWrite,
        Event.flush (some base2) (flushModeOf is_checkpoint)
          (flushIsoOf is_checkpoint s.isolation),
        Event.metaSet s.btree.name base2 .readUncommitted,
        Event.trackCkpt]⟩
  else
    ⟨env.bmResolveRet, s.isolation, false,
      evs0 ++ [Event.forceWrite,
        Event.flush (some base2) (flushModeOf is_checkpoint)
          (flushIsoOf is_checkpoint s.isolation),
        Event.metaSet s.btree.name base2 .readUncommitted,
        Event.bmResolve]⟩

/-- The locking phase as a whole (txn_ckpt.c:428): the locking loop runs
only when metadata tracking is on; otherwise the list passes unchanged and
nothing is locked. -/
def lockStage (s : SessionSt) (env : TreeEnv) (base1 : List WT_CKPT) :
    Except Int (List WT_CKPT) × List Event :=
  if s.tracking then lockLoop env s.ckptBackup base1 else (.ok base1, [])

/-- __wt_checkpoint from the clean-object test on (txn_ckpt.c:399-527): skip
for clean trees whose tail snapshot suffices (goto skip, ret still 0), append
the new ADD entry at the sentinel, lock the doomed snapshots when tracking is
on, and finish with ckptFinish. -/
def ckptMain (s : SessionSt) (env : TreeEnv) (is_checkpoint : Bool)
    (name : List Char) (ckptbase : List WT_CKPT) : TreeResult :=
  if !s.btree.modified && !is_checkpoint then
    ⟨0, s.isolation, s.btree.modified, []⟩
  else if !s.btree.modified && cleanSkip ckptbase name then
    ⟨0, s.isolation, s.btree.modified, []⟩
  else
    match lockStage s env (ckptbase ++ [⟨name, true, false, 0⟩]) with
    | (.error e, evs) => ⟨e, s.isolation, s.btree.modified, evs⟩
    | (.ok base2, evs0) => ckptFinish s env is_checkpoint base2 evs0

/-- The "name" configuration value as __wt_checkpoint reads it: cval.len
stays 0 when cfg is NULL (a close). -/
def cfgName (cfg : Option Config) : List Char :=
  match cfg with
  | none => []
  | some c => c.nameVal

/-- The parsed "drop" configuration items; none when cfg is NULL. -/
def cfgDrop (cfg : Option Config) : List (List Char × List Char) :=
  match cfg with
  | none => []
  | some c => c.dropVal

/-- __wt_checkpoint (txn_ckpt.c:269): checkpoint a tree.  cfg = none is the
handle-close variant (is_checkpoint == 0).  Early outs: a snapshot-view
handle (success for a checkpoint, flush-and-discard for a close), an
unmodified tree being closed, and a dead tree (snapshot-list load returns
WT_NOTFOUND) all flush-and-discard without writing.  Then the checkpoint name
is resolved and checked, the drop directives are applied, the entries naming
the new checkpoint are retired, and ckptMain finishes the pipeline. -/
def __wt_checkpoint (s : SessionSt) (cfg : Option Config) (env : TreeEnv) :
    TreeResult :=
  if s.btree.isCkptHandle then
    if cfg.isSome then ⟨0, s.isolation, s.btree.modified, []⟩
    else
      ⟨env.flushRet .syncDiscardNowrite, s.isolation, s.btree.modified,
        [Event.flush none .syncDiscardNowrite s.isolation]⟩
  else if !s.btree.modified && !cfg.isSome then
    ⟨env.flushRet .syncDiscardNowrite, s.isolation, s.btree.modified,
      [Event.flush none .syncDiscardNowrite s.isolation]⟩
  else
    match env.ckptlistRet with
    | .error e =>
      if e = WT_NOTFOUND then
        ⟨env.flushRet .syncDiscardNowrite, s.isolation, s.btree.modified,
          [Event.flush none .syncDiscardNowrite s.isolation]⟩
      else ⟨e, s.isolation, s.btree.modified, []⟩
    | .ok ckptbase0 =>
      if cfgName cfg ≠ [] ∧ __ckpt_name_ok (cfgName cfg) ≠ 0 then
        ⟨__ckpt_name_ok (cfgName cfg), s.isolation, s.btree.modified, []⟩
      else
        match applyDropConfig ckptbase0 (cfgDrop cfg) with
        | .error e => ⟨e, s.isolation, s.btree.modified, []⟩
        | .ok ckptbase1 =>
          ckptMain s env cfg.isSome
            (if cfgName cfg = [] then WT_CHECKPOINT else cfgName cfg)
            (__drop ckptbase1
              (if cfgName cfg = [] then WT_CHECKPOINT else cfgName cfg))

/-- One collaborator invocation made by the database driver
__wt_txn_checkpoint.  trackOff records the flag passed to __wt_meta_track_off
(ret != 0 at the err label) and whether the tracker's recorded actions were
applied. -/
inductive DbEvent where
  | beginTxn
  | trackOn
  | worker (uri : List Char)
  | applyAll (closed : Bool)
  | metaCkpt
  | trackOff (unrollArg : Bool) (applied : Bool)
  | txnRelease
deriving Repr, DecidableEq

/-- Return codes of the collaborators __wt_txn_checkpoint calls, supplied by
the environment: begin_transaction, __wt_meta_track_on, __wt_schema_worker per
target URI, __wt_meta_btree_apply / __wt_conn_btree_apply (by the closed
flag), whether the metadata handle is on the connection's open-handle queue,
the metadata tree's own __wt_checkpoint, and __wt_meta_track_off. -/
structure DbEnv where
  beginRet : Int
  trackOnRet : Int
  workerRet : List Char → Int
  applyAllRet : Bool → Int
  metaHandleFound : Bool
  metaCkptRet : Int
  trackOffRet : Int

/-- What __wt_txn_checkpoint reads: whether the calling session has a running
transaction (F_ISSET(txn, TXN_RUNNING)), the parsed "target" configuration
items, and whether the "name" and "drop" configuration values are empty. -/
structure DbInput where
  txnRunning : Bool
  targets : List (List Char × List Char)
  nameEmpty : Bool
  dropEmpty : Bool

/-- The target loop of __wt_txn_checkpoint (txn_ckpt.c:61): a target with a
non-empty value fails with EINVAL before any work; otherwise
__wt_schema_worker runs __wt_checkpoint over the target URI and its first
error aborts the loop. -/
def targetLoop (env : DbEnv) :
    List (List Char × List Char) → Except Int Unit × List DbEvent
  | [] => (.ok (), [])
  | (k, v) :: rest =>
    if v ≠ [] then (.error EINVAL, [])
    else if env.workerRet k ≠ 0 then
      (.error (env.workerRet k), [DbEvent.worker k])
    else
      let r := targetLoop env rest
      (r.1, DbEvent.worker k :: r.2)

/-- The body of __wt_txn_checkpoint between installing the tracker and the
err label (txn_ckpt.c:58-128): run the targets, or — when none are given —
apply __wt_checkpoint to every tree known to metadata (if the checkpoint is
named or drops) or to the open trees; then find the metadata handle and
checkpoint the metadata tree with tracking disabled.  Returns the first error
and the events up to it. -/
def txnCkptBody (inp : DbInput) (env : DbEnv) : Int × List DbEvent :=
  let t := targetLoop env inp.targets
  match t.1 with
  | .error e => (e, t.2)
  | .ok () =>
    let step2 : Int × List DbEvent :=
      if inp.targets = [] then
        let ckpt_closed := !inp.nameEmpty || !inp.dropEmpty
        (env.applyAllRet ckpt_closed, [DbEvent.applyAll ckpt_closed])
      else (0, [])
    if step2.1 ≠ 0 then (step2.1, t.2 ++ step2.2)
    else if !env.metaHandleFound then (EINVAL, t.2 ++ step2.2)
    else (env.metaCkptRet, t.2 ++ step2.2 ++ [DbEvent.metaCkpt])

/-- Modelled from the spec: __wt_meta_track_off lives in meta_track.c, which
is not part of this source snapshot; only its call site (txn_ckpt.c:145,
passing ret != 0) is.  Per the spec (section 4.5, Known design hazard, and
section 9): unrolling after partial success is not safe, so "The
implementation therefore commits the tracker even on error for
already-completed trees and surfaces the error to the caller" — the tracker's
recorded actions are applied whatever flag the caller passes. -/
def metaTrackOffApplied (_unrollArg : Bool) : Bool :=
  true

/-- __wt_txn_checkpoint (txn_ckpt.c:14): checkpoint a database.  A running
transaction fails with EINVAL at once; otherwise a snapshot-isolation
transaction is begun, the tracker installed, the body run, and the cleanup
path always drives the tracker (when installed) and releases the transaction.
WT_TRET keeps the body's error over the tracker's, so the first error is
returned. -/
def __wt_txn_checkpoint (inp : DbInput) (env : DbEnv) : Int × List DbEvent :=
  if inp.txnRunning then (EINVAL, [])
  else if env.beginRet ≠ 0 then (env.beginRet, [DbEvent.beginTxn])
  else if env.trackOnRet ≠ 0 then
    (env.trackOnRet, [DbEvent.beginTxn, DbEvent.txnRelease])
  else
    let body := txnCkptBody inp env
    let ret := if body.1 = 0 then env.trackOffRet else body.1
    (ret,
      DbEvent.beginTxn :: DbEvent.trackOn :: body.2 ++
        [DbEvent.trackOff (body.1 ≠ 0) (metaTrackOffApplied (body.1 ≠ 0)),
         DbEvent.txnRelease])

/-! Helper lemmas relating the C string primitives to list predicates. -/

lemma charBeq_comm (a b : Char) : (a == b) = (b == a) := by
  rw [Bool.eq_iff_iff, beq_iff_eq, beq_iff_eq]
  exact eq_comm

/-- strncmp(a, b, strlen b) == 0 says exactly that b is a prefix of a. -/
lemma strncmpEq_eq_isPrefixOf (b a : List Char) :
    strncmpEq a b b.length = b.isPrefixOf a := by
  induction b generalizing a with
  | nil => cases a <;> rfl
  | cons x bs ih =>
    cases a with
    | nil => rfl
    | cons y as =>
      show (y == x && strncmpEq as bs bs.length) = (x == y && bs.isPrefixOf as)
      rw [ih, charBeq_comm]

/-- WT_STRING_MATCH(str, bytes, len) says exactly that str equals the
(bytes, len) slice. -/
lemma WT_STRING_MATCH_iff (a b : List Char) :
    WT_STRING_MATCH a b = true ↔ a = b := by
  rw [WT_STRING_MATCH, Bool.and_eq_true, strncmpEq_eq_isPrefixOf,
    List.isPrefixOf_iff_prefix, beq_iff_eq]
  constructor
  · rintro ⟨hpre, hlen⟩
    exact (hpre.eq_of_length hlen.symm).symm
  · rintro rfl
    exact ⟨List.prefix_refl _, rfl⟩

/-- Bool form of WT_STRING_MATCH_iff. -/
lemma WT_STRING_MATCH_eq_beq (a b : List Char) :
    WT_STRING_MATCH a b = (a == b) := by
  rw [Bool.eq_iff_iff, WT_STRING_MATCH_iff, beq_iff_eq]

/-- The name check in one equation: __ckpt_name_ok rejects (with EINVAL)
exactly the names having the reserved name as a prefix. -/
lemma ckpt_name_ok_eq (s : List Char) :
    __ckpt_name_ok s = if WT_CHECKPOINT.isPrefixOf s then EINVAL else 0 := by
  rw [__ckpt_name_ok, strncmpEq_eq_isPrefixOf]
  by_cases h : WT_CHECKPOINT.isPrefixOf s
  · have hlen := (List.isPrefixOf_iff_prefix.mp h).length_le
    rw [if_neg (Nat.not_lt.mpr hlen)]
    simp [h]
  · have hb : WT_CHECKPOINT.isPrefixOf s = false := Bool.eq_false_iff.mpr h
    simp [hb]

/-- The __drop marking condition in list terms: a name that is an initial
segment of the reserved name marks the entries carrying the reserved name as
a prefix; any other name marks the entries equal to it. -/
lemma drop_eq (l : List WT_CKPT) (n : List Char) :
    __drop l n = l.map fun c =>
      if (if n.isPrefixOf WT_CHECKPOINT then WT_CHECKPOINT.isPrefixOf c.name
          else c.name == n) then F_SET_DELETE c else c := by
  rw [__drop, strncmpEq_eq_isPrefixOf]
  by_cases h : n.isPrefixOf WT_CHECKPOINT
  · simp only [h, if_true]
    refine List.map_congr_left fun c _ => ?_
    rw [strncmpEq_eq_isPrefixOf]
  · have hb : n.isPrefixOf WT_CHECKPOINT = false := Bool.eq_false_iff.mpr h
    simp only [hb, Bool.false_eq_true, if_false]
    refine List.map_congr_left fun c _ => ?_
    rw [WT_STRING_MATCH_eq_beq]

/-- Once the matched flag is set, __drop_from marks everything that is left. -/
lemma dropFromLoop_true (n : List Char) (l : List WT_CKPT) :
    dropFromLoop n true l = l.map F_SET_DELETE := by
  induction l with
  | nil => rfl
  | cons c rest ih => simp [dropFromLoop, ih]

/-- Before a match is found, __drop_from leaves unmatched entries alone. -/
lemma dropFromLoop_no_match (n : List Char) (l : List WT_CKPT)
    (h : ∀ c ∈ l, c.name ≠ n) : dropFromLoop n false l = l := by
  induction l with
  | nil => rfl
  | cons c rest ih =>
    have hc : WT_STRING_MATCH c.name n = false := by
      rw [Bool.eq_false_iff]
      exact fun hm => h c (List.mem_cons_self c rest) (WT_STRING_MATCH_iff _ _ |>.mp hm)
    simp only [dropFromLoop, hc]
    simp [ih fun d hd => h d (List.mem_cons_of_mem c hd)]

/-- __drop_from at the earliest match: entries before the first entry named n
stay, that entry and everything after it are marked. -/
lemma dropFromLoop_split (n : List Char) (l1 l2 : List WT_CKPT) (c : WT_CKPT)
    (h1 : ∀ d ∈ l1, d.name ≠ n) (hc : c.name = n) :
    dropFromLoop n false (l1 ++ c :: l2) =
      l1 ++ F_SET_DELETE c :: l2.map F_SET_DELETE := by
  induction l1 with
  | nil =>
    have hcm : WT_STRING_MATCH c.name n = true := (WT_STRING_MATCH_iff _ _).mpr hc
    simp [dropFromLoop, hcm, dropFromLoop_true]
  | cons d rest ih =>
    have hd : WT_STRING_MATCH d.name n = false := by
      rw [Bool.eq_false_iff]
      exact fun hm => h1 d (List.mem_cons_self d rest) (WT_STRING_MATCH_iff _ _ |>.mp hm)
    simp only [List.cons_append, dropFromLoop, hd]
    simp [ih fun e he => h1 e (List.mem_cons_of_mem d he)]

/-- The mark of __drop_to stays untouched over a stretch with no match. -/
lemma dropToMark_fold_no_match (n : List Char) (l : List WT_CKPT)
    (h : ∀ c ∈ l, c.name ≠ n) (i : Nat) (acc : Option Nat) :
    (List.enumFrom i l).foldl
      (fun mark p => if WT_STRING_MATCH p.2.name n then some p.1 else mark)
      acc = acc := by
  induction l generalizing i acc with
  | nil => rfl
  | cons c rest ih =>
    have hc : WT_STRING_MATCH c.name n = false := by
      rw [Bool.eq_false_iff]
      exact fun hm => h c (List.mem_cons_self c rest) (WT_STRING_MATCH_iff _ _ |>.mp hm)
    simp only [List.enumFrom, List.foldl_cons, hc, Bool.false_eq_true, if_false]
    exact ih (fun d hd => h d (List.mem_cons_of_mem c hd)) _ _

/-- The mark of __drop_to is the position of the latest entry named n. -/
lemma dropToMark_split (n : List Char) (l1 l2 : List WT_CKPT) (c : WT_CKPT)
    (hc : c.name = n) (h2 : ∀ d ∈ l2, d.name ≠ n) :
    dropToMark (l1 ++ c :: l2) n = some l1.length := by
  have hcm : WT_STRING_MATCH c.name n = true := (WT_STRING_MATCH_iff _ _).mpr hc
  rw [dropToMark, List.enum_append, List.foldl_append]
  show (List.enumFrom l1.length (c :: l2)).foldl _ _ = _
  simp only [List.enumFrom, List.foldl_cons, hcm, if_true]
  exact dropToMark_fold_no_match n l2 h2 _ _

/-- No entry named n: the mark of __drop_to is never set. -/
lemma dropToMark_none (n : List Char) (l : List WT_CKPT)
    (h : ∀ c ∈ l, c.name ≠ n) : dropToMark l n = none := by
  rw [dropToMark, List.enum]
  exact dropToMark_fold_no_match n l h 0 none

/-- Entries strictly past the mark are left alone by __drop_to's second loop. -/
lemma dropTo_map_gt (m : Nat) (l : List WT_CKPT) (i : Nat) (hi : m < i) :
    (List.enumFrom i l).map
      (fun p => if p.1 ≤ m then F_SET_DELETE p.2 else p.2) = l := by
  induction l generalizing i with
  | nil => rfl
  | cons c rest ih =>
    have : ¬(i ≤ m) := by omega
    simp only [List.enumFrom, List.map_cons, this, if_false]
    rw [ih (i + 1) (by omega)]

/-- Entries up to the mark are all marked by __drop_to's second loop. -/
lemma dropTo_map_le (m : Nat) (l : List WT_CKPT) (i : Nat)
    (hi : i + l.length ≤ m + 1) :
    (List.enumFrom i l).map
      (fun p => if p.1 ≤ m then F_SET_DELETE p.2 else p.2) =
      l.map F_SET_DELETE := by
  induction l generalizing i with
  | nil => rfl
  | cons c rest ih =>
    have : i ≤ m := by simp at hi; omega
    simp only [List.enumFrom, List.map_cons, this, if_true]
    rw [ih (i + 1) (by simp at hi ⊢; omega)]

/-- drop_from("all") marks every entry. -/
lemma drop_from_all (l : List WT_CKPT) :
    __drop_from l "all".toList = l.map F_SET_DELETE := by
  simp [__drop_from, WT_STRING_MATCH_eq_beq]

/-- drop_from with no matching entry (and a name other than "all") changes
nothing. -/
lemma drop_from_no_match (n : List Char) (l : List WT_CKPT)
    (hall : "all".toList ≠ n) (h : ∀ c ∈ l, c.name ≠ n) :
    __drop_from l n = l := by
  rw [__drop_from, WT_STRING_MATCH_eq_beq, if_neg (by simpa using hall)]
  exact dropFromLoop_no_match n l h

/-- drop_from marks from the earliest entry named n through the end. -/
lemma drop_from_split (n : List Char) (l1 l2 : List WT_CKPT) (c : WT_CKPT)
    (hall : "all".toList ≠ n) (h1 : ∀ d ∈ l1, d.name ≠ n) (hc : c.name = n) :
    __drop_from (l1 ++ c :: l2) n = l1 ++ (c :: l2).map F_SET_DELETE := by
  rw [__drop_from, WT_STRING_MATCH_eq_beq, if_neg (by simpa using hall)]
  simpa using dropFromLoop_split n l1 l2 c h1 hc

/-- drop_to with no matching entry changes nothing. -/
lemma drop_to_no_match (n : List Char) (l : List WT_CKPT)
    (h : ∀ c ∈ l, c.name ≠ n) : __drop_to l n = l := by
  rw [__drop_to, dropToMark_none n l h]

/-- drop_to marks from the start through the latest entry named n. -/
lemma drop_to_split (n : List Char) (l1 l2 : List WT_CKPT) (c : WT_CKPT)
    (hc : c.name = n) (h2 : ∀ d ∈ l2, d.name ≠ n) :
    __drop_to (l1 ++ c :: l2) n = (l1 ++ [c]).map F_SET_DELETE ++ l2 := by
  rw [__drop_to, dropToMark_split n l1 l2 c hc h2]
  show ((l1 ++ c :: l2).enum).map
      (fun p => if p.1 ≤ l1.length then F_SET_DELETE p.2 else p.2) = _
  rw [List.enum_append, List.map_append]
  rw [show l1.enum = List.enumFrom 0 l1 from rfl]
  rw [dropTo_map_le l1.length l1 0 (by omega)]
  show _ ++ (List.enumFrom l1.length (c :: l2)).map _ = _
  simp only [List.enumFrom, List.map_cons, Nat.le_refl, if_true]
  rw [dropTo_map_gt l1.length l2 (l1.length + 1) (by omega)]
  simp

/-! Helper lemmas about the doomed-snapshot locking loop. -/

/-- An Except.map result is an error only when the argument was that error. -/
lemma except_map_error {α β γ : Type} (f : α → β) (x : Except γ α) (e : γ)
    (h : x.map f = .error e) : x = .error e := by
  cases x with
  | ok a => simp [Except.map] at h
  | error e2 => simpa [Except.map] using h

/-- The locking loop never fails with a zero code: its errors are EBUSY or a
nonzero __wt_session_lock_checkpoint result. -/
lemma lockLoop_err_ne_zero (env : TreeEnv) (b : Bool) (l : List WT_CKPT)
    (e : Int) (h : (lockLoop env b l).1 = .error e) : e ≠ 0 := by
  induction l with
  | nil => simp [lockLoop] at h
  | cons c rest ih =>
    rw [lockLoop] at h
    split at h
    · exact ih (except_map_error _ _ _ h)
    · split at h
      · split at h
        · exact ih (except_map_error _ _ _ h)
        · injection h with h2
          rw [← h2, EBUSY]
          omega
      · split at h
        · exact ih (except_map_error _ _ _ h)
        · split at h
          · exact ih (except_map_error _ _ _ h)
          · rename_i hnot0 _
            injection h with h2
            rw [← h2]
            exact hnot0

/-- An Except.map result is ok only when the argument was ok. -/
lemma except_map_ok {α β γ : Type} (f : α → β) (x : Except γ α) (y : β)
    (h : x.map f = .ok y) : ∃ a, x = .ok a ∧ y = f a := by
  cases x with
  | ok a => exact ⟨a, rfl, by simpa [Except.map] using h.symm⟩
  | error e2 => simp [Except.map] at h

/-- Every event the locking loop emits is a lock invocation. -/
lemma lockLoop_events_lock (env : TreeEnv) (b : Bool) (l : List WT_CKPT) :
    ∀ ev ∈ (lockLoop env b l).2, ∃ nm, ev = Event.lockCkpt nm := by
  induction l with
  | nil => simp [lockLoop]
  | cons c rest ih =>
    rw [lockLoop]
    split
    · exact ih
    · split
      · split
        · exact ih
        · simp
      · split
        · intro ev hev
          rcases List.mem_cons.mp hev with h1 | h1
          · exact ⟨c.name, h1⟩
          · exact ih ev h1
        · split
          · intro ev hev
            rcases List.mem_cons.mp hev with h1 | h1
            · exact ⟨c.name, h1⟩
            · exact ih ev h1
          · intro ev hev
            rcases List.mem_cons.mp hev with h1 | h1
            · exact ⟨c.name, h1⟩
            · simp at h1

/-- The per-entry effect of a successful locking loop: a doomed entry keeps
or loses its DELETE flag depending on the backup bit and the lock result;
nothing else changes. -/
def lockFix (env : TreeEnv) (b : Bool) (c : WT_CKPT) : WT_CKPT :=
  if c.delete then
    (if b then F_CLR_DELETE c
     else if env.lockRet c.name = 0 then c else F_CLR_DELETE c)
  else c

/-- A successful locking loop returns the pointwise lockFix of its input. -/
lemma lockLoop_ok_eq (env : TreeEnv) (b : Bool) (l l2 : List WT_CKPT)
    (h : (lockLoop env b l).1 = .ok l2) : l2 = l.map (lockFix env b) := by
  induction l generalizing l2 with
  | nil =>
    simp only [lockLoop] at h
    injection h with h2
    simp [← h2]
  | cons c rest ih =>
    rw [lockLoop] at h
    cases hdel : c.delete with
    | false =>
      simp only [hdel, Bool.not_false, if_true] at h
      obtain ⟨rest2, hr, rfl⟩ := except_map_ok _ _ _ h
      rw [ih rest2 hr]
      simp [lockFix, hdel]
    | true =>
      simp only [hdel, Bool.not_true, Bool.false_eq_true, if_false] at h
      cases b with
      | true =>
        simp only [if_true] at h
        by_cases hint : strncmpEq c.name WT_CHECKPOINT WT_CHECKPOINT.length = true
        · rw [if_pos hint] at h
          obtain ⟨rest2, hr, rfl⟩ := except_map_ok _ _ _ h
          rw [ih rest2 hr]
          simp [lockFix, hdel]
        · rw [if_neg hint] at h
          simp at h
      | false =>
        simp only [Bool.false_eq_true, if_false] at h
        by_cases h0 : env.lockRet c.name = 0
        · rw [if_pos h0] at h
          obtain ⟨rest2, hr, rfl⟩ := except_map_ok _ _ _ h
          rw [ih rest2 hr]
          simp [lockFix, hdel, h0]
        · rw [if_neg h0] at h
          split at h
          · obtain ⟨rest2, hr, rfl⟩ := except_map_ok _ _ _ h
            rw [ih rest2 hr]
            simp [lockFix, hdel, h0]
          · simp at h

/-- Backup cursor open, every doomed entry reserved-named: the loop clears
those DELETE flags, succeeds, and calls no lock. -/
lemma lockLoop_backup_ok (env : TreeEnv) (l : List WT_CKPT)
    (h : ∀ c ∈ l, c.delete = true → WT_CHECKPOINT.isPrefixOf c.name = true) :
    lockLoop env true l = (.ok (l.map (lockFix env true)), []) := by
  induction l with
  | nil => rfl
  | cons c rest ih =>
    have ihr := ih fun d hd => h d (List.mem_cons_of_mem c hd)
    rw [lockLoop, ihr]
    cases hdel : c.delete with
    | false => simp [Except.map, lockFix, hdel]
    | true =>
      have hint := h c (List.mem_cons_self c rest) hdel
      rw [← strncmpEq_eq_isPrefixOf] at hint
      simp [Except.map, lockFix, hdel, hint, strncmpEq_eq_isPrefixOf]

/-- Backup cursor open, some doomed entry not reserved-named: the loop fails
with EBUSY at the earliest such entry, without calling any lock. -/
lemma lockLoop_backup_err (env : TreeEnv) (good rest : List WT_CKPT)
    (bad : WT_CKPT)
    (hg : ∀ c ∈ good, c.delete = true → WT_CHECKPOINT.isPrefixOf c.name = true)
    (hb : bad.delete = true)
    (hbn : WT_CHECKPOINT.isPrefixOf bad.name = false) :
    lockLoop env true (good ++ bad :: rest) = (.error EBUSY, []) := by
  induction good with
  | nil =>
    have hint : strncmpEq bad.name WT_CHECKPOINT WT_CHECKPOINT.length = false := by
      rw [strncmpEq_eq_isPrefixOf]; exact hbn
    simp [lockLoop, hb, hint]
  | cons c good2 ih =>
    have ihr := ih fun d hd => hg d (List.mem_cons_of_mem c hd)
    rw [List.cons_append, lockLoop, ihr]
    cases hdel : c.delete with
    | false => simp [Except.map, hdel]
    | true =>
      have hint := hg c (List.mem_cons_self c good2) hdel
      rw [← strncmpEq_eq_isPrefixOf] at hint
      simp [Except.map, hdel, hint]

/-- No backup cursor, every doomed entry lockable (or EBUSY on a reserved
name): the loop locks each doomed entry in order and succeeds, keeping the
DELETE flag where the lock succeeded and clearing it where it was busy. -/
lemma lockLoop_nobackup_ok (env : TreeEnv) (l : List WT_CKPT)
    (h : ∀ c ∈ l, c.delete = true → env.lockRet c.name = 0 ∨
      (env.lockRet c.name = EBUSY ∧ WT_CHECKPOINT.isPrefixOf c.name = true)) :
    lockLoop env false l = (.ok (l.map (lockFix env false)),
      (l.filter fun c => c.delete).map fun c => Event.lockCkpt c.name) := by
  induction l with
  | nil => rfl
  | cons c rest ih =>
    have ihr := ih fun d hd => h d (List.mem_cons_of_mem c hd)
    rw [lockLoop, ihr]
    cases hdel : c.delete with
    | false => simp [Except.map, lockFix, hdel]
    | true =>
      rcases h c (List.mem_cons_self c rest) hdel with h0 | ⟨hbusy, hint⟩
      · simp [Except.map, lockFix, hdel, h0]
      · rw [← strncmpEq_eq_isPrefixOf] at hint
        by_cases h0 : env.lockRet c.name = 0
        · simp [Except.map, lockFix, hdel, h0]
        · simp [Except.map, lockFix, hdel, h0, hbusy, hint, EBUSY]

/-- No backup cursor, a doomed entry neither lockable nor squelchable: the
loop fails with that entry's lock result, after having locked the earlier
doomed entries. -/
lemma lockLoop_nobackup_err (env : TreeEnv) (good rest : List WT_CKPT)
    (bad : WT_CKPT)
    (hg : ∀ c ∈ good, c.delete = true → env.lockRet c.name = 0 ∨
      (env.lockRet c.name = EBUSY ∧ WT_CHECKPOINT.isPrefixOf c.name = true))
    (hb : bad.delete = true) (hr : env.lockRet bad.name ≠ 0)
    (hnot : ¬(env.lockRet bad.name = EBUSY ∧
      WT_CHECKPOINT.isPrefixOf bad.name = true)) :
    lockLoop env false (good ++ bad :: rest) =
      (.error (env.lockRet bad.name),
        ((good.filter fun c => c.delete).map fun c => Event.lockCkpt c.name)
          ++ [Event.lockCkpt bad.name]) := by
  induction good with
  | nil =>
    have hcond : ¬((env.lockRet bad.name = EBUSY) ∧
        strncmpEq bad.name WT_CHECKPOINT WT_CHECKPOINT.length = true) := by
      rw [strncmpEq_eq_isPrefixOf]; exact hnot
    rw [List.nil_append, lockLoop]
    simp only [hb, Bool.not_true, Bool.false_eq_true, if_false, if_neg hr]
    rw [if_neg (by
      intro hx
      rcases Bool.and_eq_true _ _ |>.mp hx with ⟨hx1, hx2⟩
      exact hcond ⟨of_decide_eq_true hx1, hx2⟩)]
    simp
  | cons c good2 ih =>
    have ihr := ih fun d hd => hg d (List.mem_cons_of_mem c hd)
    rw [List.cons_append, lockLoop, ihr]
    cases hdel : c.delete with
    | false => simp [Except.map, hdel]
    | true =>
      rcases hg c (List.mem_cons_self c good2) hdel with h0 | ⟨hbusy, hint⟩
      · simp [Except.map, hdel, h0]
      · rw [← strncmpEq_eq_isPrefixOf] at hint
        by_cases h0 : env.lockRet c.name = 0
        · simp [Except.map, hdel, h0]
        · simp [Except.map, hdel, h0, hbusy, hint, EBUSY]

/-! Drop planning only sets DELETE flags: every entry of the output is an
entry of the input, possibly with its DELETE flag set. -/

lemma mem_drop (l : List WT_CKPT) (n : List Char) (c : WT_CKPT)
    (h : c ∈ __drop l n) : ∃ d ∈ l, c = d ∨ c = F_SET_DELETE d := by
  rw [__drop] at h
  split at h <;>
  · obtain ⟨d, hd, hc⟩ := List.mem_map.mp h
    refine ⟨d, hd, ?_⟩
    split at hc
    · exact Or.inr hc.symm
    · exact Or.inl hc.symm

lemma mem_dropFromLoop (n : List Char) (m : Bool) (l : List WT_CKPT)
    (c : WT_CKPT) (h : c ∈ dropFromLoop n m l) :
    ∃ d ∈ l, c = d ∨ c = F_SET_DELETE d := by
  induction l generalizing m with
  | nil => simp [dropFromLoop] at h
  | cons e rest ih =>
    rw [dropFromLoop] at h
    split at h <;> rcases List.mem_cons.mp h with h1 | h1
    · exact ⟨e, List.mem_cons_self e rest, Or.inl h1⟩
    · obtain ⟨d, hd, hc⟩ := ih _ h1
      exact ⟨d, List.mem_cons_of_mem e hd, hc⟩
    · exact ⟨e, List.mem_cons_self e rest, Or.inr h1⟩
    · obtain ⟨d, hd, hc⟩ := ih _ h1
      exact ⟨d, List.mem_cons_of_mem e hd, hc⟩

lemma mem_drop_from (l : List WT_CKPT) (n : List Char) (c : WT_CKPT)
    (h : c ∈ __drop_from l n) : ∃ d ∈ l, c = d ∨ c = F_SET_DELETE d := by
  rw [__drop_from] at h
  split at h
  · obtain ⟨d, hd, hc⟩ := List.mem_map.mp h
    exact ⟨d, hd, Or.inr hc.symm⟩
  · exact mem_dropFromLoop n false l c h

lemma mem_enumFrom_snd (l : List WT_CKPT) (i : Nat) (p : Nat × WT_CKPT)
    (h : p ∈ List.enumFrom i l) : p.2 ∈ l := by
  induction l generalizing i with
  | nil => simp [List.enumFrom] at h
  | cons e rest ih =>
    rw [List.enumFrom] at h
    rcases List.mem_cons.mp h with h1 | h1
    · rw [h1]; exact List.mem_cons_self e rest
    · exact List.mem_cons_of_mem e (ih _ h1)

lemma mem_drop_to (l : List WT_CKPT) (n : List Char) (c : WT_CKPT)
    (h : c ∈ __drop_to l n) : ∃ d ∈ l, c = d ∨ c = F_SET_DELETE d := by
  rw [__drop_to] at h
  split at h
  · exact ⟨c, h, Or.inl rfl⟩
  · obtain ⟨p, hp, hc⟩ := List.mem_map.mp h
    refine ⟨p.2, mem_enumFrom_snd l 0 p hp, ?_⟩
    split at hc
    · exact Or.inr hc.symm
    · exact Or.inl hc.symm

lemma mem_applyDropConfig (ds : List (List Char × List Char))
    (l l2 : List WT_CKPT) (h : applyDropConfig l ds = .ok l2) (c : WT_CKPT)
    (hc : c ∈ l2) : ∃ d ∈ l, c.add = d.add ∧ c.name = d.name := by
  induction ds generalizing l with
  | nil =>
    rw [applyDropConfig] at h
    injection h with h2
    exact ⟨c, h2 ▸ hc, rfl, rfl⟩
  | cons kv rest ih =>
    obtain ⟨k, v⟩ := kv
    rw [applyDropConfig] at h
    by_cases hv : v = []
    · rw [if_pos hv, if_pos hv] at h
      split at h
      · exact absurd h (by simp)
      · obtain ⟨d, hd, hcd⟩ := ih _ h
        obtain ⟨e, he, hde⟩ := mem_drop l k d hd
        refine ⟨e, he, ?_⟩
        rcases hde with h1 | h1 <;> rw [h1] at hcd <;>
          simpa [F_SET_DELETE] using hcd
    · rw [if_neg hv, if_neg hv] at h
      split at h
      · exact absurd h (by simp)
      · split at h
        · obtain ⟨d, hd, hcd⟩ := ih _ h
          obtain ⟨e, he, hde⟩ := mem_drop_from l v d hd
          refine ⟨e, he, ?_⟩
          rcases hde with h1 | h1 <;> rw [h1] at hcd <;>
            simpa [F_SET_DELETE] using hcd
        · split at h
          · obtain ⟨d, hd, hcd⟩ := ih _ h
            obtain ⟨e, he, hde⟩ := mem_drop_to l v d hd
            refine ⟨e, he, ?_⟩
            rcases hde with h1 | h1 <;> rw [h1] at hcd <;>
              simpa [F_SET_DELETE] using hcd
          · exact absurd h (by simp)

/-! Lemmas about the per-tree pipeline tail (ckptMain). -/

lemma lockFix_add (env : TreeEnv) (b : Bool) (c : WT_CKPT) :
    (lockFix env b c).add = c.add := by
  rw [lockFix]
  split
  · split
    · rfl
    · split <;> rfl
  · rfl

lemma lockFix_of_delete_false (env : TreeEnv) (b : Bool) (c : WT_CKPT)
    (h : c.delete = false) : lockFix env b c = c := by
  rw [lockFix, if_neg (by simp [h])]

/-- Isolation is restored on every exit of the pipeline tail. -/
lemma ckptFinish_isolation (s : SessionSt) (env : TreeEnv) (ick : Bool)
    (base2 : List WT_CKPT) (evs0 : List Event) :
    (ckptFinish s env ick base2 evs0).isolation = s.isolation := by
  rw [ckptFinish]
  repeat' split
  all_goals rfl

/-- Every exit of ckptMain restores the isolation saved on entry. -/
lemma ckptMain_isolation (s : SessionSt) (env : TreeEnv) (ick : Bool)
    (name : List Char) (base : List WT_CKPT) :
    (ckptMain s env ick name base).isolation = s.isolation := by
  rw [ckptMain]
  repeat' split
  all_goals first
    | rfl
    | exact ckptFinish_isolation _ _ _ _ _

/-- The snapshot list inside any flush or metaSet event of the pipeline tail
is the list the locking stage produced. -/
lemma ckptFinish_event_list (s : SessionSt) (env : TreeEnv) (ick : Bool)
    (base2 : List WT_CKPT) (evs0 : List Event) (lst : List WT_CKPT)
    (hevs0 : ∀ ev ∈ evs0, ∃ nm, ev = Event.lockCkpt nm)
    (h : (∃ mode iso, Event.flush (some lst) mode iso ∈
            (ckptFinish s env ick base2 evs0).events) ∨
         (∃ tn iso, Event.metaSet tn lst iso ∈
            (ckptFinish s env ick base2 evs0).events)) :
    lst = base2 := by
  have hnf : ∀ (l2 : Option (List WT_CKPT)) m i, Event.flush l2 m i ∉ evs0 := by
    intro l2 m i hmem
    obtain ⟨nm, hnm⟩ := hevs0 _ hmem
    simp at hnm
  have hnm : ∀ t l2 i, Event.metaSet t l2 i ∉ evs0 := by
    intro t l2 i hmem
    obtain ⟨nm, hnm⟩ := hevs0 _ hmem
    simp at hnm
  rw [ckptFinish] at h
  split at h
  · rcases h with ⟨m, i, h⟩ | ⟨t, i, h⟩ <;> rw [List.mem_append] at h <;>
      rcases h with h | h
    · exact absurd h (hnf _ _ _)
    · simp at h
    · exact absurd h (hnm _ _ _)
    · simp at h
  · split at h
    · rcases h with ⟨m, i, h⟩ | ⟨t, i, h⟩ <;> rw [List.mem_append] at h <;>
        rcases h with h | h
      · exact absurd h (hnf _ _ _)
      · simp at h
        exact h.1
      · exact absurd h (hnm _ _ _)
      · simp at h
    · split at h
      · rcases h with ⟨m, i, h⟩ | ⟨t, i, h⟩ <;> rw [List.mem_append] at h <;>
          rcases h with h | h
        · exact absurd h (hnf _ _ _)
        · simp at h
          exact h.1
        · exact absurd h (hnm _ _ _)
        · simp at h
          exact h.2.1
      · split at h
        · rcases h with ⟨m, i, h⟩ | ⟨t, i, h⟩ <;> rw [List.mem_append] at h <;>
            rcases h with h | h
          · exact absurd h (hnf _ _ _)
          · simp at h
            exact h.1
          · exact absurd h (hnm _ _ _)
          · simp at h
            exact h.2.1
        · rcases h with ⟨m, i, h⟩ | ⟨t, i, h⟩ <;> rw [List.mem_append] at h <;>
            rcases h with h | h
          · exact absurd h (hnf _ _ _)
          · simp at h
            exact h.1
          · exact absurd h (hnm _ _ _)
          · simp at h
            exact h.2.1
/-- The locking stage emits only lock events. -/
lemma lockStage_events_lock (s : SessionSt) (env : TreeEnv)
    (base1 : List WT_CKPT) :
    ∀ ev ∈ (lockStage s env base1).2, ∃ nm, ev = Event.lockCkpt nm := by
  rw [lockStage]
  split
  · exact lockLoop_events_lock env s.ckptBackup base1
  · simp

/-- The locking stage never fails with a zero code. -/
lemma lockStage_err_ne_zero (s : SessionSt) (env : TreeEnv)
    (base1 : List WT_CKPT) (e : Int)
    (h : (lockStage s env base1).1 = .error e) : e ≠ 0 := by
  rw [lockStage] at h
  split at h
  · exact lockLoop_err_ne_zero env s.ckptBackup base1 e h
  · simp at h

/-- A successful locking stage returns the input list unchanged (no
tracking) or its pointwise lockFix (tracking). -/
lemma lockStage_ok_shape (s : SessionSt) (env : TreeEnv)
    (base1 l2 : List WT_CKPT) (h : (lockStage s env base1).1 = .ok l2) :
    l2 = base1 ∨ l2 = base1.map (lockFix env s.ckptBackup) := by
  rw [lockStage] at h
  split at h
  · exact Or.inr (lockLoop_ok_eq env s.ckptBackup base1 l2 h)
  · injection h with h2
    exact Or.inl h2.symm

/-- The locking stage is a no-op without tracking. -/
lemma lockStage_no_tracking (s : SessionSt) (env : TreeEnv)
    (base1 : List WT_CKPT) (ht : s.tracking = false) :
    lockStage s env base1 = (.ok base1, []) := by
  rw [lockStage, ht]
  simp

/-- The snapshot list inside any flush or metaSet event of ckptMain is the
successful result of the locking stage over the list with the new entry
appended. -/
lemma ckptMain_event_list (s : SessionSt) (env : TreeEnv) (ick : Bool)
    (name : List Char) (base : List WT_CKPT) (lst : List WT_CKPT)
    (h : (∃ mode iso, Event.flush (some lst) mode iso ∈
            (ckptMain s env ick name base).events) ∨
         (∃ tn iso, Event.metaSet tn lst iso ∈
            (ckptMain s env ick name base).events)) :
    (lockStage s env (base ++ [⟨name, true, false, 0⟩])).1 = .ok lst := by
  rw [ckptMain] at h
  split at h
  · rcases h with ⟨_, _, h⟩ | ⟨_, _, h⟩ <;> simp at h
  · split at h
    · rcases h with ⟨_, _, h⟩ | ⟨_, _, h⟩ <;> simp at h
    · split at h
      · rename_i e evs heq
        have hevs := lockStage_events_lock s env
          (base ++ [⟨name, true, false, 0⟩])
        rw [heq] at hevs
        rcases h with ⟨_, _, h⟩ | ⟨_, _, h⟩ <;>
        · obtain ⟨nm, hnm⟩ := hevs _ h
          simp at hnm
      · rename_i base2 evs0 heq
        have hevs0 : ∀ ev ∈ evs0, ∃ nm, ev = Event.lockCkpt nm := by
          have hl := lockStage_events_lock s env
            (base ++ [⟨name, true, false, 0⟩])
          rw [heq] at hl
          exact hl
        have hlb := ckptFinish_event_list s env ick base2 evs0 lst hevs0 h
        rw [heq, hlb]

/-- Once past the clean-skip test, the pipeline tail cannot both succeed and
avoid the flusher. -/
lemma ckptFinish_not_silent (s : SessionSt) (env : TreeEnv) (ick : Bool)
    (base2 : List WT_CKPT) (evs0 : List Event) :
    ¬((ckptFinish s env ick base2 evs0).ret = 0 ∧
      (∀ l m i, Event.flush l m i ∉ (ckptFinish s env ick base2 evs0).events) ∧
      (∀ t l i,
        Event.metaSet t l i ∉ (ckptFinish s env ick base2 evs0).events)) := by
  rw [ckptFinish]
  split
  · rename_i hfw
    rintro ⟨h1, _, _⟩
    exact hfw h1
  · split
    · rename_i hfl
      rintro ⟨h1, _, _⟩
      exact hfl h1
    · split
      · rintro ⟨_, h2, _⟩
        exact h2 (some base2) (flushModeOf ick) (flushIsoOf ick s.isolation)
          (by simp)
      · split
        · rintro ⟨_, h2, _⟩
          exact h2 (some base2) (flushModeOf ick) (flushIsoOf ick s.isolation)
            (by simp)
        · rintro ⟨_, h2, _⟩
          exact h2 (some base2) (flushModeOf ick) (flushIsoOf ick s.isolation)
            (by simp)

/-- The clean-tree short-circuit of ckptMain, both directions: with an
unmodified tree in checkpoint mode, the call returns success without any
flush or metadata write exactly when the clean-skip test holds on the list
after drop processing. -/
lemma ckptMain_skip_iff (s : SessionSt) (env : TreeEnv) (name : List Char)
    (base : List WT_CKPT) (hmod : s.btree.modified = false) :
    ((ckptMain s env true name base).ret = 0 ∧
     (∀ l m i, Event.flush l m i ∉ (ckptMain s env true name base).events) ∧
     (∀ t l i, Event.metaSet t l i ∉ (ckptMain s env true name base).events))
    ↔ cleanSkip base name = true := by
  rw [ckptMain]
  simp only [hmod, Bool.not_false, Bool.not_true, Bool.and_false,
    Bool.false_eq_true, if_false, Bool.true_and]
  by_cases hc : cleanSkip base name
  · simp [hc]
  · simp only [hc, Bool.false_eq_true, if_false, iff_false]
    split
    · rename_i e evs heq
      rintro ⟨h1, _, _⟩
      exact lockStage_err_ne_zero s env (base ++ [⟨name, true, false, 0⟩]) e
        (by rw [heq]) h1
    · exact ckptFinish_not_silent s env true _ _

/-- The pipeline tail emits lock events only through the locking stage. -/
lemma ckptFinish_lock_mem (s : SessionSt) (env : TreeEnv) (ick : Bool)
    (base2 : List WT_CKPT) (evs0 : List Event) (nm : List Char)
    (h : Event.lockCkpt nm ∈ (ckptFinish s env ick base2 evs0).events) :
    Event.lockCkpt nm ∈ evs0 := by
  rw [ckptFinish] at h
  split at h
  · rcases List.mem_append.mp h with h | h
    · exact h
    · simp at h
  · split at h
    · rcases List.mem_append.mp h with h | h
      · exact h
      · simp at h
    · split at h
      · rcases List.mem_append.mp h with h | h
        · exact h
        · simp at h
      · split at h
        · rcases List.mem_append.mp h with h | h
          · exact h
          · simp at h
        · rcases List.mem_append.mp h with h | h
          · exact h
          · simp at h

/-- Without tracking, ckptMain never locks a snapshot. -/
lemma ckptMain_no_lock (s : SessionSt) (env : TreeEnv) (ick : Bool)
    (name : List Char) (base : List WT_CKPT) (ht : s.tracking = false)
    (nm : List Char) :
    Event.lockCkpt nm ∉ (ckptMain s env ick name base).events := by
  rw [ckptMain]
  split
  · simp
  · split
    · simp
    · split
      · rename_i e evs heq
        rw [lockStage_no_tracking s env _ ht] at heq
        simp at heq
      · rename_i base2 evs0 heq
        rw [lockStage_no_tracking s env _ ht] at heq
        injection heq with h1 h2
        intro hmem
        have := ckptFinish_lock_mem s env ick base2 evs0 nm hmem
        rw [← h2] at this
        simp at this

/-- Reduction of __wt_checkpoint to its pipeline tail: with a regular handle,
a loaded snapshot list, an accepted name and successfully parsed drops, the
per-tree checkpoint is ckptMain on the drop-processed list (drop directives,
then same-name retirement) with the resolved name. -/
lemma checkpoint_reduce (s : SessionSt) (cfg : Config) (env : TreeEnv)
    (L L1 : List WT_CKPT)
    (hhandle : s.btree.isCkptHandle = false)
    (hlist : env.ckptlistRet = .ok L)
    (hname : __ckpt_name_ok cfg.nameVal = 0)
    (hdrop : applyDropConfig L cfg.dropVal = .ok L1) :
    __wt_checkpoint s (some cfg) env =
      ckptMain s env true
        (if cfg.nameVal = [] then WT_CHECKPOINT else cfg.nameVal)
        (__drop L1 (if cfg.nameVal = [] then WT_CHECKPOINT else cfg.nameVal)) := by
  rw [__wt_checkpoint]
  simp only [Option.isSome_some, hhandle, Bool.false_eq_true, if_false,
    Bool.not_true, Bool.and_false, hlist, cfgName, cfgDrop, hname, ne_eq,
    not_true_eq_false, and_false, not_false_eq_true, hdrop]

/-- The clean-skip test in list terms. -/
lemma cleanSkip_iff (l : List WT_CKPT) (name : List Char) :
    cleanSkip l name = true ↔
      (l.countP (fun c => c.delete) = 1 ∧
       ∃ last, l.getLast? = some last ∧ last.delete = true ∧
         last.name = name) := by
  rw [cleanSkip]
  cases hgl : l.getLast? with
  | none => simp
  | some a => simp [Bool.and_eq_true]

/-- The list handed to flush or metaSet by ckptMain carries exactly one ADD
entry — the appended one, last in the list, never DELETE-flagged — provided
the input list carries none. -/
lemma ckptMain_one_add (s : SessionSt) (env : TreeEnv) (ick : Bool)
    (name : List Char) (base : List WT_CKPT) (lst : List WT_CKPT)
    (hadd : ∀ c ∈ base, c.add = false)
    (h : (∃ mode iso, Event.flush (some lst) mode iso ∈
            (ckptMain s env ick name base).events) ∨
         (∃ tn iso, Event.metaSet tn lst iso ∈
            (ckptMain s env ick name base).events)) :
    lst.countP (fun c => c.add) = 1 ∧
    ∃ last, lst.getLast? = some last ∧ last.add = true ∧
      last.delete = false ∧ last.name = name := by
  have hok := ckptMain_event_list s env ick name base lst h
  have hcount1 : (base ++ [(⟨name, true, false, 0⟩ : WT_CKPT)]).countP
      (fun c => c.add) = 1 := by
    rw [List.countP_append, List.countP_eq_zero.mpr
      (fun c hc => by simp [hadd c hc])]
    simp [List.countP_cons]
  rcases lockStage_ok_shape s env _ lst hok with h1 | h1
  · subst h1
    refine ⟨hcount1, ⟨name, true, false, 0⟩, ?_⟩
    simp [List.getLast?_concat]
  · subst h1
    constructor
    · rw [List.countP_map]
      rw [List.countP_congr fun c _ => ?_]
      · exact hcount1
      · simp [Function.comp, lockFix_add]
    · refine ⟨⟨name, true, false, 0⟩, ?_⟩
      rw [List.getLast?_map, List.getLast?_concat]
      simp [lockFix_of_delete_false env s.ckptBackup ⟨name, true, false, 0⟩ rfl]

/-! The claims. -/

/-- Claim C1, counterexample to the claim as stated: "Wired" is accepted by
the validator and differs from the reserved name "WiredTigerCheckpoint", so
the claim requires __drop to mark exactly the entries named "Wired"; but the
code routes any name that is an initial segment of the reserved name through
the reserved-prefix branch, so the sole entry named "Wired" is left
unmarked. -/
theorem drop_named_counterexample :
    __ckpt_name_ok "Wired".toList = 0 ∧
    "Wired".toList ≠ WT_CHECKPOINT ∧
    (⟨"Wired".toList, false, false, 0⟩ : WT_CKPT).delete = false ∧
    __drop [⟨"Wired".toList, false, false, 0⟩] "Wired".toList =
      [⟨"Wired".toList, false, false, 0⟩] := by
  decide

/-- Claim C1, as amended: dropping by name maps each entry to itself with
DELETE set exactly when it matches, and the special reserved-prefix case
triggers not only when the name equals "WiredTigerCheckpoint" but whenever
the name is an initial segment of it (strncmp(WT_CHECKPOINT, name, len) == 0);
in that case exactly the entries whose name begins with the full reserved
name are marked, otherwise exactly the entries whose name equals the given
name.  No other entry or flag changes (the map keeps everything else). -/
theorem drop_named_amended (l : List WT_CKPT) (n : List Char) :
    __drop l n = l.map fun c =>
      if (if n.isPrefixOf WT_CHECKPOINT then WT_CHECKPOINT.isPrefixOf c.name
          else c.name == n) then F_SET_DELETE c else c :=
  drop_eq l n

/-- Claim C5: drop_from("all") marks every entry; drop_from(n) for another n
marks from the earliest entry named n through the end and is a no-op without
a match; drop_to(n) marks from the start through the latest entry named n and
is a no-op without a match.  The earliest and the latest match are expressed
by decomposing the list around an entry named n with no match before it
(resp. after it). -/
theorem drop_range_semantics (l l1 l2 : List WT_CKPT) (c : WT_CKPT)
    (n : List Char) :
    (__drop_from l "all".toList = l.map F_SET_DELETE) ∧
    ("all".toList ≠ n → (∀ d ∈ l, d.name ≠ n) → __drop_from l n = l) ∧
    ("all".toList ≠ n → (∀ d ∈ l1, d.name ≠ n) → c.name = n →
      __drop_from (l1 ++ c :: l2) n = l1 ++ (c :: l2).map F_SET_DELETE) ∧
    ((∀ d ∈ l, d.name ≠ n) → __drop_to l n = l) ∧
    (c.name = n → (∀ d ∈ l2, d.name ≠ n) →
      __drop_to (l1 ++ c :: l2) n = (l1 ++ [c]).map F_SET_DELETE ++ l2) :=
  ⟨drop_from_all l,
   fun hall h => drop_from_no_match n l hall h,
   fun hall h1 hc => drop_from_split n l1 l2 c hall h1 hc,
   fun h => drop_to_no_match n l h,
   fun hc h2 => drop_to_split n l1 l2 c hc h2⟩

/-- Claim C6: name validation fails with EINVAL exactly on the strings that
begin with the reserved name "WiredTigerCheckpoint" — the reserved name
itself and every extension of it — and succeeds on every other string,
including the empty string and any string shorter than the reserved name. -/
theorem name_validation_iff (s : List Char) :
    (__ckpt_name_ok s = EINVAL ↔ WT_CHECKPOINT.isPrefixOf s = true) ∧
    (__ckpt_name_ok s = 0 ↔ WT_CHECKPOINT.isPrefixOf s = false) := by
  rw [ckpt_name_ok_eq]
  by_cases h : WT_CHECKPOINT.isPrefixOf s
  · simp [h, EINVAL]
  · have hb : WT_CHECKPOINT.isPrefixOf s = false := Bool.eq_false_iff.mpr h
    simp [hb, EINVAL]

/-- Claim C7: the per-tree early-outs.  A snapshot-view handle: checkpoint
mode succeeds with no work, close mode flushes-and-discards without writing.
An unmodified tree being closed flushes-and-discards without writing.  A dead
tree (snapshot-list load returns WT_NOTFOUND), in checkpoint mode or when
closing a modified tree, flushes-and-discards with SYNC_DISCARD_NOWRITE,
writes no metadata, and returns the flusher's result instead of propagating
WT_NOTFOUND — success whenever the flusher succeeds. -/
theorem checkpoint_early_outs (s : SessionSt) (cfg : Config) (env : TreeEnv) :
    (s.btree.isCkptHandle = true →
      __wt_checkpoint s (some cfg) env =
        ⟨0, s.isolation, s.btree.modified, []⟩) ∧
    (s.btree.isCkptHandle = true →
      __wt_checkpoint s none env =
        ⟨env.flushRet .syncDiscardNowrite, s.isolation, s.btree.modified,
          [Event.flush none .syncDiscardNowrite s.isolation]⟩) ∧
    (s.btree.isCkptHandle = false → s.btree.modified = false →
      __wt_checkpoint s none env =
        ⟨env.flushRet .syncDiscardNowrite, s.isolation, s.btree.modified,
          [Event.flush none .syncDiscardNowrite s.isolation]⟩) ∧
    (s.btree.isCkptHandle = false → env.ckptlistRet = .error WT_NOTFOUND →
      __wt_checkpoint s (some cfg) env =
        ⟨env.flushRet .syncDiscardNowrite, s.isolation, s.btree.modified,
          [Event.flush none .syncDiscardNowrite s.isolation]⟩) ∧
    (s.btree.isCkptHandle = false → s.btree.modified = true →
      env.ckptlistRet = .error WT_NOTFOUND →
      __wt_checkpoint s none env =
        ⟨env.flushRet .syncDiscardNowrite, s.isolation, s.btree.modified,
          [Event.flush none .syncDiscardNowrite s.isolation]⟩) := by
  refine ⟨fun h1 => ?_, fun h1 => ?_, fun h1 h2 => ?_, fun h1 h2 => ?_,
    fun h1 h2 h3 => ?_⟩
  · rw [__wt_checkpoint]
    simp [h1]
  · rw [__wt_checkpoint]
    simp [h1]
  · rw [__wt_checkpoint]
    simp [h1, h2]
  · rw [__wt_checkpoint]
    simp [h1, h2, WT_NOTFOUND]
  · rw [__wt_checkpoint]
    simp [h1, h2, h3, WT_NOTFOUND]

/-- Claim C9: on every return path of the per-tree checkpoint — the
early-outs, the clean-tree skip, successful completion, and every failure —
the session's transaction isolation at return equals its value at entry,
although the body transiently lowers it to read-uncommitted before the flush
(in close mode, recorded in the flush event) and before persisting the
snapshot list (recorded in the metaSet event). -/
theorem checkpoint_isolation_restored (s : SessionSt) (cfg : Option Config)
    (env : TreeEnv) :
    (__wt_checkpoint s cfg env).isolation = s.isolation := by
  cases cfg with
  | none =>
    rw [__wt_checkpoint]
    repeat' split
    all_goals first
      | rfl
      | exact ckptMain_isolation _ _ _ _ _
  | some c =>
    rw [__wt_checkpoint]
    repeat' split
    all_goals first
      | rfl
      | exact ckptMain_isolation _ _ _ _ _

/-- Claim C8: a running application transaction makes the database
checkpoint driver fail with EINVAL at once — no transaction is begun, no
tracker installed, no per-tree work done (the event list is empty); without
a running transaction the snapshot-isolation transaction is begun first,
before any other collaborator. -/
theorem txn_checkpoint_running_guard (inp : DbInput) (env : DbEnv) :
    (inp.txnRunning = true → __wt_txn_checkpoint inp env = (EINVAL, [])) ∧
    (inp.txnRunning = false →
      ((__wt_txn_checkpoint inp env).2).head? = some DbEvent.beginTxn) := by
  constructor
  · intro h
    rw [__wt_txn_checkpoint, if_pos h]
  · intro h
    rw [__wt_txn_checkpoint, if_neg (by simp [h])]
    split
    · rfl
    · split
      · rfl
      · rfl

/-- Claim C2: when the driver's body fails after the tracker was installed
(the begin and track-on steps succeeded but the body returned nonzero), the
cleanup path hands the error flag to __wt_meta_track_off, whose spec-modelled
semantics applies (commits) the recorded actions regardless, and WT_TRET
preserves the body's error as the driver's return value. -/
theorem txn_checkpoint_commit_on_error (inp : DbInput) (env : DbEnv)
    (hrun : inp.txnRunning = false) (hb : env.beginRet = 0)
    (ht : env.trackOnRet = 0) :
    ((txnCkptBody inp env).1 ≠ 0 →
      (__wt_txn_checkpoint inp env).1 = (txnCkptBody inp env).1 ∧
      DbEvent.trackOff true (metaTrackOffApplied true) ∈
        (__wt_txn_checkpoint inp env).2) ∧
    ((txnCkptBody inp env).1 = 0 →
      (__wt_txn_checkpoint inp env).1 = env.trackOffRet ∧
      DbEvent.trackOff false (metaTrackOffApplied false) ∈
        (__wt_txn_checkpoint inp env).2) ∧
    (∀ b, metaTrackOffApplied b = true) := by
  rw [__wt_txn_checkpoint, if_neg (by simp [hrun]), if_neg (by simp [hb]),
    if_neg (by simp [ht])]
  refine ⟨fun he => ⟨by simp [he], ?_⟩, fun he => ⟨by simp [he], ?_⟩,
    fun b => rfl⟩
  · have hd : decide ((txnCkptBody inp env).1 ≠ 0) = true := decide_eq_true he
    simp [hd]
  · have hd : decide ((txnCkptBody inp env).1 ≠ 0) = false := by
      simp [he]
    simp [hd]

/-- Claim C2 witness: a body failure (the metadata handle is missing, so the
body returns EINVAL) after the tracker was installed. -/
theorem txn_checkpoint_commit_on_error_witness :
    ((txnCkptBody ⟨false, [], true, true⟩
        ⟨0, 0, fun _ => 0, fun _ => 0, false, 0, 0⟩).1 ≠ 0 →
      (__wt_txn_checkpoint ⟨false, [], true, true⟩
          ⟨0, 0, fun _ => 0, fun _ => 0, false, 0, 0⟩).1 =
        (txnCkptBody ⟨false, [], true, true⟩
          ⟨0, 0, fun _ => 0, fun _ => 0, false, 0, 0⟩).1 ∧
      DbEvent.trackOff true (metaTrackOffApplied true) ∈
        (__wt_txn_checkpoint ⟨false, [], true, true⟩
          ⟨0, 0, fun _ => 0, fun _ => 0, false, 0, 0⟩).2) ∧
    ((txnCkptBody ⟨false, [], true, true⟩
        ⟨0, 0, fun _ => 0, fun _ => 0, false, 0, 0⟩).1 = 0 →
      (__wt_txn_checkpoint ⟨false, [], true, true⟩
          ⟨0, 0, fun _ => 0, fun _ => 0, false, 0, 0⟩).1 = 0 ∧
      DbEvent.trackOff false (metaTrackOffApplied false) ∈
        (__wt_txn_checkpoint ⟨false, [], true, true⟩
          ⟨0, 0, fun _ => 0, fun _ => 0, false, 0, 0⟩).2) ∧
    (∀ b, metaTrackOffApplied b = true) :=
  txn_checkpoint_commit_on_error ⟨false, [], true, true⟩
    ⟨0, 0, fun _ => 0, fun _ => 0, false, 0, 0⟩ rfl rfl rfl

/-- Without tracking, the per-tree checkpoint never locks a snapshot. -/
lemma checkpoint_no_lock (s : SessionSt) (cfg : Option Config) (env : TreeEnv)
    (ht : s.tracking = false) (nm : List Char) :
    Event.lockCkpt nm ∉ (__wt_checkpoint s cfg env).events := by
  cases cfg with
  | none =>
    rw [__wt_checkpoint]
    repeat' split
    all_goals first
      | exact ckptMain_no_lock _ _ _ _ _ ht nm
      | simp
  | some c =>
    rw [__wt_checkpoint]
    repeat' split
    all_goals first
      | exact ckptMain_no_lock _ _ _ _ _ ht nm
      | simp

/-- Claim C3: for an unmodified tree in checkpoint mode (regular handle,
snapshot list loaded, name accepted, drops parsed), the per-tree checkpoint
returns success with no flush and no metadata write — the short-circuit —
exactly when, after drop processing and same-name retirement, exactly one
entry is DELETE-flagged, that entry is the last of the list, and its name is
the resolved checkpoint name. -/
theorem checkpoint_clean_skip_iff (s : SessionSt) (cfg : Config)
    (env : TreeEnv) (L L1 : List WT_CKPT)
    (hhandle : s.btree.isCkptHandle = false)
    (hmod : s.btree.modified = false)
    (hlist : env.ckptlistRet = .ok L)
    (hname : __ckpt_name_ok cfg.nameVal = 0)
    (hdrop : applyDropConfig L cfg.dropVal = .ok L1) :
    (((__wt_checkpoint s (some cfg) env).ret = 0 ∧
      (∀ l m i,
        Event.flush l m i ∉ (__wt_checkpoint s (some cfg) env).events) ∧
      (∀ t l i,
        Event.metaSet t l i ∉ (__wt_checkpoint s (some cfg) env).events))
     ↔ ((__drop L1
          (if cfg.nameVal = [] then WT_CHECKPOINT else cfg.nameVal)).countP
            (fun c => c.delete) = 1 ∧
        ∃ last,
          (__drop L1 (if cfg.nameVal = [] then WT_CHECKPOINT
            else cfg.nameVal)).getLast? = some last ∧
          last.delete = true ∧
          last.name =
            (if cfg.nameVal = [] then WT_CHECKPOINT else cfg.nameVal))) := by
  rw [checkpoint_reduce s cfg env L L1 hhandle hlist hname hdrop,
    ← cleanSkip_iff]
  exact ckptMain_skip_iff s env _ _ hmod

/-- Claim C3 witness: the idle-periodic scenario — snapshot list with the
single entry ckpt_A and a second checkpoint named ckpt_A of an unmodified
tree; both sides of the equivalence hold. -/
theorem checkpoint_clean_skip_iff_witness :
    (((__wt_checkpoint ⟨⟨"t".toList, false, false⟩, .snapshot, true, false⟩
        (some ⟨"ckpt_A".toList, []⟩)
        ⟨.ok [⟨"ckpt_A".toList, false, false, 7⟩], fun _ => 0, 0,
          fun _ => 0, 0, 0, 0⟩).ret = 0 ∧
      (∀ l m i, Event.flush l m i ∉
        (__wt_checkpoint ⟨⟨"t".toList, false, false⟩, .snapshot, true, false⟩
          (some ⟨"ckpt_A".toList, []⟩)
          ⟨.ok [⟨"ckpt_A".toList, false, false, 7⟩], fun _ => 0, 0,
            fun _ => 0, 0, 0, 0⟩).events) ∧
      (∀ t l i, Event.metaSet t l i ∉
        (__wt_checkpoint ⟨⟨"t".toList, false, false⟩, .snapshot, true, false⟩
          (some ⟨"ckpt_A".toList, []⟩)
          ⟨.ok [⟨"ckpt_A".toList, false, false, 7⟩], fun _ => 0, 0,
            fun _ => 0, 0, 0, 0⟩).events))
     ↔ ((__drop [⟨"ckpt_A".toList, false, false, 7⟩]
          (if "ckpt_A".toList = [] then WT_CHECKPOINT
           else "ckpt_A".toList)).countP (fun c => c.delete) = 1 ∧
        ∃ last,
          (__drop [⟨"ckpt_A".toList, false, false, 7⟩]
            (if "ckpt_A".toList = [] then WT_CHECKPOINT
             else "ckpt_A".toList)).getLast? = some last ∧
          last.delete = true ∧
          last.name = (if "ckpt_A".toList = [] then WT_CHECKPOINT
            else "ckpt_A".toList))) :=
  checkpoint_clean_skip_iff
    ⟨⟨"t".toList, false, false⟩, .snapshot, true, false⟩
    ⟨"ckpt_A".toList, []⟩
    ⟨.ok [⟨"ckpt_A".toList, false, false, 7⟩], fun _ => 0, 0,
      fun _ => 0, 0, 0, 0⟩
    [⟨"ckpt_A".toList, false, false, 7⟩]
    [⟨"ckpt_A".toList, false, false, 7⟩]
    rfl rfl rfl (by decide) rfl

/-- Claim C4: doomed-snapshot locking.  (1) It happens only when a tracker
is installed: without tracking the per-tree checkpoint emits no lock call.
With a backup cursor open: (2) when every DELETE-flagged entry carries the
reserved prefix, each such flag is silently cleared, the loop succeeds and no
lock is called; (3) a DELETE-flagged entry without the prefix (after
well-behaved ones) fails the loop with EBUSY.  Without a backup cursor:
(4) the lock is invoked for each doomed entry in order; success keeps the
flag, EBUSY on a reserved-prefix name clears it and continues; (5) a doomed
entry whose lock result is neither — EBUSY on a non-reserved name, or any
other error — fails the checkpoint with that result, after the earlier
locks. -/
theorem lock_doomed_entries (s : SessionSt) (cfg : Option Config)
    (env : TreeEnv) (l good rest : List WT_CKPT) (bad : WT_CKPT)
    (nm : List Char) :
    (s.tracking = false →
      Event.lockCkpt nm ∉ (__wt_checkpoint s cfg env).events) ∧
    ((∀ c ∈ l, c.delete = true → WT_CHECKPOINT.isPrefixOf c.name = true) →
      lockLoop env true l =
        (.ok (l.map fun c => if c.delete then F_CLR_DELETE c else c), [])) ∧
    ((∀ c ∈ good, c.delete = true → WT_CHECKPOINT.isPrefixOf c.name = true) →
      bad.delete = true → WT_CHECKPOINT.isPrefixOf bad.name = false →
      lockLoop env true (good ++ bad :: rest) = (.error EBUSY, [])) ∧
    ((∀ c ∈ l, c.delete = true → env.lockRet c.name = 0 ∨
        (env.lockRet c.name = EBUSY ∧
          WT_CHECKPOINT.isPrefixOf c.name = true)) →
      lockLoop env false l =
        (.ok (l.map fun c =>
          if c.delete then
            (if env.lockRet c.name = 0 then c else F_CLR_DELETE c)
          else c),
         (l.filter fun c => c.delete).map fun c =>
           Event.lockCkpt c.name)) ∧
    ((∀ c ∈ good, c.delete = true → env.lockRet c.name = 0 ∨
        (env.lockRet c.name = EBUSY ∧
          WT_CHECKPOINT.isPrefixOf c.name = true)) →
      bad.delete = true → env.lockRet bad.name ≠ 0 →
      ¬(env.lockRet bad.name = EBUSY ∧
          WT_CHECKPOINT.isPrefixOf bad.name = true) →
      lockLoop env false (good ++ bad :: rest) =
        (.error (env.lockRet bad.name),
          ((good.filter fun c => c.delete).map fun c =>
            Event.lockCkpt c.name) ++ [Event.lockCkpt bad.name])) := by
  refine ⟨fun ht => checkpoint_no_lock s cfg env ht nm,
    fun h => ?_, fun hg hb hbn => lockLoop_backup_err env good rest bad hg hb hbn,
    fun h => ?_,
    fun hg hb hr hnot => lockLoop_nobackup_err env good rest bad hg hb hr hnot⟩
  · rw [lockLoop_backup_ok env l h]
    rfl
  · rw [lockLoop_nobackup_ok env l h]
    rfl

/-- Drop planning preserves the absence of ADD flags. -/
lemma drop_preserves_add (L1 : List WT_CKPT) (n : List Char)
    (h : ∀ c ∈ L1, c.add = false) : ∀ c ∈ __drop L1 n, c.add = false := by
  intro c hc
  obtain ⟨d, hd, hcd⟩ := mem_drop L1 n c hc
  rcases hcd with h1 | h1 <;> rw [h1]
  · exact h d hd
  · simpa [F_SET_DELETE] using h d hd

/-- The drop-configuration loop preserves the absence of ADD flags. -/
lemma applyDrop_preserves_add (ds : List (List Char × List Char))
    (L L1 : List WT_CKPT) (hdrop : applyDropConfig L ds = .ok L1)
    (h : ∀ c ∈ L, c.add = false) : ∀ c ∈ L1, c.add = false := by
  intro x hx
  obtain ⟨y, hy, hxy, _⟩ := mem_applyDropConfig ds L L1 hdrop x hx
  rw [hxy]
  exact h y hy

/-- checkpoint_reduce for both modes: any per-tree checkpoint that gets past
the early-outs (a checkpoint, or the close of a modified tree) is ckptMain
on the drop-processed list with the resolved name (the reserved internal
name for a close or an unnamed checkpoint). -/
lemma checkpoint_reduce_any (s : SessionSt) (cfg : Option Config)
    (env : TreeEnv) (L L1 : List WT_CKPT)
    (hhandle : s.btree.isCkptHandle = false)
    (hm : s.btree.modified = true ∨ cfg.isSome = true)
    (hlist : env.ckptlistRet = .ok L)
    (hname : __ckpt_name_ok (cfgName cfg) = 0)
    (hdrop : applyDropConfig L (cfgDrop cfg) = .ok L1) :
    __wt_checkpoint s cfg env =
      ckptMain s env cfg.isSome
        (if cfgName cfg = [] then WT_CHECKPOINT else cfgName cfg)
        (__drop L1
          (if cfgName cfg = [] then WT_CHECKPOINT else cfgName cfg)) := by
  cases cfg with
  | some c =>
    exact checkpoint_reduce s c env L L1 hhandle hlist hname hdrop
  | none =>
    rcases hm with hm | hm
    · have hdrop2 : applyDropConfig L [] = Except.ok L1 := hdrop
      rw [__wt_checkpoint]
      simp only [Option.isSome_none, hhandle, Bool.false_eq_true, if_false,
        hm, Bool.not_true, Bool.false_and, hlist, cfgName, cfgDrop, ne_eq,
        not_true_eq_false, false_and, hdrop2]
    · simp at hm

/-- Claim C10: provided the loaded list carries no ADD flag, the snapshot
list handed to the flusher and to the metadata writer by any per-tree
checkpoint that does not short-circuit — checkpoint mode and handle-close
mode alike — carries exactly one ADD entry — the newly appended one, last in
the list, named after the checkpoint (the reserved internal name for a
close) — and that entry is not DELETE-flagged: all DELETE setting happened
before the append, and the locking loop only clears DELETE flags. -/
theorem checkpoint_single_add (s : SessionSt) (cfg : Option Config)
    (env : TreeEnv) (L L1 lst : List WT_CKPT)
    (hhandle : s.btree.isCkptHandle = false)
    (hlist : env.ckptlistRet = .ok L)
    (hname : __ckpt_name_ok (cfgName cfg) = 0)
    (hdrop : applyDropConfig L (cfgDrop cfg) = .ok L1)
    (hadd : ∀ c ∈ L, c.add = false)
    (h : (∃ m i, Event.flush (some lst) m i ∈
            (__wt_checkpoint s cfg env).events) ∨
         (∃ tn i, Event.metaSet tn lst i ∈
            (__wt_checkpoint s cfg env).events)) :
    lst.countP (fun c => c.add) = 1 ∧
    ∃ last, lst.getLast? = some last ∧ last.add = true ∧
      last.delete = false ∧
      last.name = (if cfgName cfg = [] then WT_CHECKPOINT
        else cfgName cfg) := by
  have haddL1 : ∀ c ∈ L1, c.add = false :=
    applyDrop_preserves_add (cfgDrop cfg) L L1 hdrop hadd
  by_cases hm : s.btree.modified = true ∨ cfg.isSome = true
  · rw [checkpoint_reduce_any s cfg env L L1 hhandle hm hlist hname hdrop] at h
    exact ckptMain_one_add s env cfg.isSome _ _ lst
      (drop_preserves_add L1 _ haddL1) h
  · exfalso
    rw [not_or] at hm
    obtain ⟨hm1, hm2⟩ := hm
    have hmf : s.btree.modified = false := Bool.eq_false_iff.mpr hm1
    have hcn : cfg = none := by
      cases cfg with
      | none => rfl
      | some c => simp at hm2
    subst hcn
    rw [__wt_checkpoint] at h
    simp [hhandle, hmf] at h

/-- Claim C10 witness: the close of a modified tree (the handle-close mode
the claim also covers) with one old entry named b; the flusher and the
metadata writer receive the list with the old entry and the single new ADD
entry carrying the reserved internal name, last and not DELETE-flagged. -/
theorem checkpoint_single_add_witness :
    ([⟨"b".toList, false, false, 0⟩,
      (⟨WT_CHECKPOINT, true, false, 0⟩ : WT_CKPT)].countP
        (fun c => c.add) = 1 ∧
    ∃ last, [⟨"b".toList, false, false, 0⟩,
        (⟨WT_CHECKPOINT, true, false, 0⟩ : WT_CKPT)].getLast? = some last ∧
      last.add = true ∧ last.delete = false ∧
      last.name = (if cfgName none = [] then WT_CHECKPOINT
        else cfgName none)) :=
  checkpoint_single_add
    ⟨⟨"t".toList, false, true⟩, .snapshot, false, false⟩
    none
    ⟨.ok [⟨"b".toList, false, false, 0⟩], fun _ => 0, 0, fun _ => 0, 0, 0, 0⟩
    [⟨"b".toList, false, false, 0⟩]
    [⟨"b".toList, false, false, 0⟩]
    [⟨"b".toList, false, false, 0⟩, ⟨WT_CHECKPOINT, true, false, 0⟩]
    rfl rfl rfl rfl (by decide)
    (Or.inl ⟨Sync.syncDiscard, Isolation.readUncommitted, by decide⟩)

end WTC
